import Mathlib

/-!
# Verification of the baseball-card-games core logic

Shallow embedding of the core game logic of the repository
(cards.js, game.js + HighScores, valuation.js, guess.js) and proofs of the
specification's claims about it.

Conventions of the embedding:
* JavaScript strings are Lean `String`s; `toLowerCase`, `trim` and
  `split(' ')` are implemented over the character list (`jsToLower`,
  `jsTrim`, `jsSplitSpace`) so that concrete instances evaluate.
* JavaScript numbers that the core uses are integers; `parseInt(s, 10)` is
  modelled as `Option Int` with `none` standing for `NaN`.
* `Math.random()`-driven choices are made explicit inputs: a `List Bool` of
  fair coin results for random comparators, `Nat` indices for random picks.
* `localStorage` is modelled as the parsed value it holds (`Option Store`);
  JSON (de)serialisation is the identity on that model and writes succeed.
* Fallible code paths (JavaScript `TypeError`) return `Option`.
-/

/-- JavaScript `s.toLowerCase()` restricted to the ASCII names the card data
uses. -/
def jsToLower (s : String) : String :=
  ⟨s.data.map Char.toLower⟩

/-- JavaScript `s.trim()`: strip leading and trailing whitespace. -/
def jsTrim (s : String) : String :=
  ⟨((s.data.dropWhile Char.isWhitespace).reverse.dropWhile
      Char.isWhitespace).reverse⟩

/-- Accumulator loop for `jsSplitSpace`. -/
def splitSpaceAux : List Char → List Char → List (List Char)
  | [], cur => [cur.reverse]
  | c :: cs, cur =>
      if c = ' ' then cur.reverse :: splitSpaceAux cs []
      else splitSpaceAux cs (c :: cur)

/-- JavaScript `s.split(' ')`: split at every single space, keeping empty
pieces (`"".split(' ')` is `[""]`). -/
def jsSplitSpace (s : String) : List String :=
  (splitSpaceAux s.data []).map (fun cs => ⟨cs⟩)

/-- Longest leading run of decimal digits, as `parseInt` consumes. -/
def leadingDigits (cs : List Char) : List Char :=
  cs.takeWhile (·.isDigit)

/-- Numeric value of a digit list, most significant first. -/
def digitsToNat (cs : List Char) : Nat :=
  cs.foldl (fun a c => a * 10 + (c.toNat - 48)) 0

/-- JavaScript `parseInt(s, 10)`: skip leading whitespace, optional sign,
longest digit prefix; `none` models `NaN` (no digits). -/
def parseIntJS (s : String) : Option Int :=
  let cs := (jsTrim s).data
  match cs with
  | '-' :: rest =>
      let ds := leadingDigits rest
      if ds.isEmpty then none else some (-(digitsToNat ds : Int))
  | '+' :: rest =>
      let ds := leadingDigits rest
      if ds.isEmpty then none else some (digitsToNat ds : Int)
  | _ =>
      let ds := leadingDigits cs
      if ds.isEmpty then none else some (digitsToNat ds : Int)

/-- The fields of a card record that the core logic reads.  The remaining
fields of the JSON records (cardSet, grade, imageFile, description, team,
position) are presentation-only and never consulted by game logic. -/
structure Card where
  id : String
  playerName : String
  year : Int
  estimatedValue : String
  deriving Repr, DecidableEq

namespace Cards

/-- `Cards.parseValue`: `parseInt(valueString.replace(/[$,+]/g, ''), 10)`.
`none` models the `NaN` result on a malformed value string. -/
def parseValue (valueString : String) : Option Int :=
  parseIntJS ⟨valueString.data.filter (fun c => c ≠ '$' ∧ c ≠ ',' ∧ c ≠ '+')⟩

/-- One step of the random-comparator sort: insert `x` into the already
processed list, consuming one fair coin per comparison.  `Array.prototype.sort`
with the inconsistent comparator `() => Math.random() - 0.5` is
implementation-defined; we model it as a stable insertion sort whose every
comparison is an independent fair coin (`true` = comparator returned a
positive number, i.e. keep scanning right). -/
def insertR (x : α) : List α → List Bool → List α × List Bool
  | [], coins => ([x], coins)
  | d :: ds, [] => (x :: d :: ds, [])
  | d :: ds, c :: coins =>
      if c then
        let (l, coins2) := insertR x ds coins
        (d :: l, coins2)
      else
        (x :: d :: ds, coins)

/-- Model of `[...arr].sort(() => Math.random() - 0.5)`: insertion sort driven
by the coin stream. -/
def sortR : List α → List Bool → List α × List Bool
  | [], coins => ([], coins)
  | x :: xs, coins =>
      let (l, coins1) := sortR xs coins
      insertR x l coins1

/-- `Cards.selectRandom(count)`: shuffle a copy of the catalog with the
random comparator and take the first `count` entries. -/
def selectRandom (allCards : List Card) (count : Nat) (coins : List Bool) :
    List Card :=
  ((sortR allCards coins).1).take count

/-- A tile of the matching board: a card projected with a unique tile id. -/
structure Tile where
  id : String
  tileId : String
  deriving Repr, DecidableEq

/-- Swap two array entries, identity when out of bounds (never happens for
the in-range indices Fisher-Yates produces). -/
def swapA (a : Array α) (i j : Nat) : Array α :=
  if h : i < a.size ∧ j < a.size then
    (a.swap ⟨i, h.1⟩ ⟨j, h.2⟩)
  else a

/-- The Fisher-Yates loop of `prepareGameDeck`: `i` counts down from
`size - 1` to `1`, `j = Math.floor(Math.random() * (i + 1))` is modelled as
the supplied random number reduced `% (i + 1)`. -/
def fyLoop (a : Array Tile) : Nat → List Nat → Array Tile
  | 0, _ => a
  | _ + 1, [] => a
  | i + 1, j :: js => fyLoop (swapA a (i + 1) (j % (i + 2))) i js

/-- `Cards.prepareGameDeck(selectedCards)`: two tiles per card
(`{id}-a` / `{id}-b`) then a Fisher-Yates shuffle. -/
def prepareGameDeck (selectedCards : List Card) (js : List Nat) : List Tile :=
  let deck := selectedCards.flatMap
    (fun card => [⟨card.id, card.id ++ "-a"⟩, ⟨card.id, card.id ++ "-b"⟩])
  (fyLoop deck.toArray (deck.length - 1) js).toList

/-- `Cards.getCardById(id)`: first card with the id, else `null`. -/
def getCardById (allCards : List Card) (id : String) : Option Card :=
  allCards.find? (fun card => card.id = id)

/-- Comparator of `sortByValue` in descending mode: `valB - valA < 0`, i.e.
strictly greater parsed value sorts earlier.  A `NaN` comparator result is
treated as `0` (equal) per the ECMAScript SortCompare coercion, hence `false`
here. -/
def valGt (a b : Card) : Bool :=
  match parseValue a.estimatedValue, parseValue b.estimatedValue with
  | some x, some y => x > y
  | _, _ => false

/-- Stable insertion of a card into an already descending-sorted list:
`c` passes every earlier card of strictly greater value and lands before the
first card not greater than it (equal values keep source order, matching the
stability `Array.prototype.sort` guarantees). -/
def insertVal (c : Card) : List Card → List Card
  | [] => [c]
  | d :: ds => if valGt d c then d :: insertVal c ds else c :: d :: ds

/-- `Cards.sortByValue(cards, true)`: stable sort by parsed numeric value,
descending. -/
def sortByValue (cards : List Card) : List Card :=
  cards.foldr insertVal []

end Cards

/-! ## ScoreLedger (`HighScores` in game.js) -/

namespace HighScores

/-- The three game-type strings the new-format API is called with.  Each is
non-numeric (`isNaN(gameType)` holds), so every call with one of them takes
the new-format branch of `get`/`save`, never the numeric backwards-compat
branch. -/
inductive GameType where
  | matching
  | valuation
  | guess
  deriving Repr, DecidableEq

/-- A nested score map `difficulty → bestScore`, as a JSON object: an
insertion-ordered association list with unique keys. -/
def Entries := List (String × Nat)

instance : DecidableEq Entries := by
  unfold Entries
  infer_instance

/-- Lookup in a nested map; `none` models `undefined`. -/
def lookupE (l : Entries) (k : String) : Option Nat :=
  (l.find? (fun p => p.1 = k)).map Prod.snd

/-- JavaScript `obj[k] = v`: replace in place if present, else append. -/
def setE (l : Entries) (k : String) (v : Nat) : Entries :=
  match l with
  | [] => [(k, v)]
  | p :: rest => if p.1 = k then (k, v) :: rest else p :: setE rest k v

/-- The parsed top-level object held in `localStorage`.  The `matching`,
`valuation`, `guess` properties are each absent (`none`, falsy) or an object
(`some`, truthy — also when empty).  `legacy` are the remaining top-level
properties with numeric keys (the old flat `{difficulty: score}` shape);
top-level non-numeric keys other than the three mode names never occur in
stores this module writes. -/
structure Store where
  matching : Option Entries
  valuation : Option Entries
  guess : Option Entries
  legacy : Entries
  deriving DecidableEq

/-- `{}`: the store parsed from an empty/missing `localStorage` entry. -/
def emptyStore : Store := ⟨none, none, none, []⟩

/-- Read a mode property of the store. -/
def Store.field (s : Store) : GameType → Option Entries
  | .matching => s.matching
  | .valuation => s.valuation
  | .guess => s.guess

/-- Write a mode property of the store. -/
def Store.setField (s : Store) : GameType → Entries → Store
  | .matching, e => { s with matching := some e }
  | .valuation, e => { s with valuation := some e }
  | .guess, e => { s with guess := some e }

/-- `HighScores.migrateScores(scores)`: pass new-format stores through
(`scores.matching || scores.valuation` truthy); otherwise fold the numeric
top-level keys into `matching` and drop everything else. -/
def migrateScores (scores : Store) : Store :=
  if scores.matching.isSome || scores.valuation.isSome then
    scores
  else
    ⟨some scores.legacy, some [], none, []⟩

/-- `HighScores.getAll()`: parse the stored value (`{}` when absent) and
migrate.  Corrupt JSON (the `catch` branch) is outside this model: the
storage holds a parsed `Store` or nothing. -/
def getAll (storage : Option Store) : Store :=
  migrateScores (storage.getD emptyStore)

/-- `v || null` applied to a looked-up score: a stored `0` is falsy and
collapses to `null`. -/
def orNull (v : Option Nat) : Option Nat :=
  match v with
  | some 0 => none
  | x => x

/-- `HighScores.get(gameType, difficulty)` in the new-format branch
(the only branch reachable for the three mode strings):
`scores[gameType]?.[difficulty] || null`. -/
def get (gameType : GameType) (difficulty : String) (storage : Option Store) :
    Option Nat :=
  let scores := getAll storage
  orNull ((scores.field gameType).bind (fun e => lookupE e difficulty))

/-- `!currentBest || score < currentBest` (matching) resp.
`!currentBest || score > currentBest` (valuation/guess): a missing *or zero*
best is falsy and always loses. -/
def isNewRecord (gameType : GameType) (currentBest : Option Nat) (score : Nat) :
    Bool :=
  match currentBest with
  | none => true
  | some 0 => true
  | some b =>
      match gameType with
      | .matching => score < b
      | _ => score > b

/-- `HighScores.save(gameType, difficulty, score)` in the new-format branch:
read-migrate, ensure the mode object exists, compare under the mode's
comparator, write back the whole object when a new record is set.  The
`localStorage.setItem` write is modelled as succeeding (its `catch` returns
`false` without having stored anything). -/
def save (gameType : GameType) (difficulty : String) (score : Nat)
    (storage : Option Store) : Option Store × Bool :=
  let scores := getAll storage
  let scores := match scores.field gameType with
    | none => scores.setField gameType []
    | some _ => scores
  let currentBest := (scores.field gameType).bind (fun e => lookupE e difficulty)
  if isNewRecord gameType currentBest score then
    (some (scores.setField gameType
      (setE ((scores.field gameType).getD []) difficulty score)), true)
  else
    (storage, false)

end HighScores

/-! ## MatchingEngine (`Game` in game.js) -/

namespace Game

/-- `Game.state`. -/
structure MatchState where
  cards : List Cards.Tile
  flippedCards : List Cards.Tile
  matchedPairs : List String
  turns : Nat
  isLocked : Bool
  cardCount : Nat
  isPlaying : Bool
  deriving Repr, DecidableEq

/-- The result object of `flipCard`.  `matched` stands for the
`action: 'match'` object (`match` is reserved in Lean); the `mismatch`
result's `unlock` closure is the `Game.unlock` state transformer below. -/
inductive FlipResult where
  | ignored
  | flipped (card : Cards.Tile)
  | matched (first second : Cards.Tile) (turns : Nat) (isVictory : Bool)
  | mismatch (first second : Cards.Tile) (turns : Nat)
  deriving Repr, DecidableEq

/-- `Game.handleMatch`. -/
def handleMatch (s : MatchState) (first second : Cards.Tile) :
    MatchState × FlipResult :=
  let matched := s.matchedPairs ++ [first.id]
  let s := { s with matchedPairs := matched, flippedCards := [] }
  (s, .matched first second s.turns (matched.length = s.cardCount))

/-- `Game.handleMismatch`: lock the board; the returned `unlock` capability
is `Game.unlock`. -/
def handleMismatch (s : MatchState) (first second : Cards.Tile) :
    MatchState × FlipResult :=
  let s := { s with isLocked := true }
  (s, .mismatch first second s.turns)

/-- The body of the `unlock` closure returned with a mismatch result. -/
def unlock (s : MatchState) : MatchState :=
  { s with flippedCards := [], isLocked := false }

/-- `Game.flipCard(tileId)`. -/
def flipCard (s : MatchState) (tileId : String) : MatchState × FlipResult :=
  if s.isLocked || !s.isPlaying then (s, .ignored)
  else
    match s.cards.find? (fun c => c.tileId = tileId) with
    | none => (s, .ignored)
    | some card =>
      if (s.flippedCards.find? (fun c => c.tileId = tileId)).isSome then
        (s, .ignored)
      else if s.matchedPairs.contains card.id then (s, .ignored)
      else
        let s1 := { s with flippedCards := s.flippedCards ++ [card] }
        if s1.flippedCards.length = 1 then (s1, .flipped card)
        else
          let s2 := { s1 with turns := s1.turns + 1 }
          match s2.flippedCards with
          | first :: second :: _ =>
              if first.id = second.id then handleMatch s2 first second
              else handleMismatch s2 first second
          | _ => (s2, .ignored)  -- unreachable: the buffer has ≥ 2 entries here

/-- `Game.init(cardCount)` after `Cards.load()` resolved to `allCards`. -/
def init (allCards : List Card) (cardCount : Nat) (coins : List Bool)
    (js : List Nat) : MatchState :=
  let selectedCards := Cards.selectRandom allCards cardCount coins
  { cards := Cards.prepareGameDeck selectedCards js
    flippedCards := []
    matchedPairs := []
    turns := 0
    isLocked := false
    cardCount := cardCount
    isPlaying := true }

/-- An input the caller can feed the session: a flip, or invoking the unlock
capability of an earlier mismatch result. -/
inductive MAction where
  | flip (tileId : String)
  | unlock
  deriving Repr, DecidableEq

/-- Did this flip complete a pair (`match` or `mismatch` result)? -/
def isCompleted : FlipResult → Bool
  | .matched _ _ _ _ => true
  | .mismatch _ _ _ => true
  | _ => false

/-- Run a sequence of caller inputs; also count how many flips completed a
pair. -/
def run (s : MatchState) : List MAction → MatchState × Nat
  | [] => (s, 0)
  | .flip t :: rest =>
      let (s1, r) := flipCard s t
      let (s2, n) := run s1 rest
      (s2, (if isCompleted r then 1 else 0) + n)
  | .unlock :: rest => run (unlock s) rest

end Game

/-! ## ValuationEngine (valuation.js) -/

namespace Valuation

/-- The three sub-mode strings `'3-card' | '2-card' | '1-card'`. -/
inductive VMode where
  | threeCard
  | twoCard
  | oneCard
  deriving Repr, DecidableEq

/-- A user answer as recorded in round history: the placements array
(3-card) or an id / display-value string (2-card / 1-card). -/
inductive VAnswer where
  | ids (l : List (Option String))
  | str (s : String)
  deriving Repr, DecidableEq

/-- A correct answer: id sequence (3-card), id or display value (string
modes), or `null` (no mode matched). -/
inductive VCorrect where
  | ids (l : List String)
  | str (s : String)
  | nullAnswer
  deriving Repr, DecidableEq

/-- One `roundHistory` entry. -/
structure VRound where
  round : Nat
  cards : List Card
  userAnswer : VAnswer
  correctAnswer : VCorrect
  isCorrect : Bool
  deriving Repr, DecidableEq

/-- `Valuation.state`.  `mode` is `none` before `init`. -/
structure VState where
  mode : Option VMode
  currentRound : Nat
  correctCount : Nat
  usedCardIds : List String
  roundCards : List Card
  selectedCard : Option String
  placements : List (Option String)
  roundHistory : List VRound
  isPlaying : Bool
  awaitingNextRound : Bool
  deriving Repr, DecidableEq

/-- The selection loop of `selectCardsWithUniqueValues` over the already
shuffled pool: keep the first card of each parsed value, stop once `count`
cards are kept.  `usedValues` is the `Set` of values already kept — JS `Set`
equates `NaN` with `NaN`, which `Option Int` equality mirrors. -/
def selectUniqueLoop : List Card → Nat → List (Option Int) → List Card
  | [], _, _ => []
  | c :: cs, count, used =>
      let value := Cards.parseValue c.estimatedValue
      if used.contains value then selectUniqueLoop cs count used
      else if count = 1 then [c]
      else c :: selectUniqueLoop cs (count - 1) (value :: used)

/-- `Valuation.selectCardsWithUniqueValues(pool, count)`: shuffle with the
random comparator, then the selection loop. -/
def selectCardsWithUniqueValues (pool : List Card) (count : Nat)
    (coins : List Bool) : List Card :=
  selectUniqueLoop (Cards.sortR pool coins).1 count []

/-- `Valuation.setupRound()`. -/
def setupRound (allCards : List Card) (coins : List Bool) (s : VState) :
    VState :=
  let cardCount := match s.mode with
    | some .threeCard => 3
    | some .twoCard => 2
    | _ => 1
  let available := allCards.filter (fun c => !(s.usedCardIds.contains c.id))
  let (used0, available) :=
    if available.length < cardCount then ([], allCards)
    else (s.usedCardIds, available)
  let roundCards := selectCardsWithUniqueValues available cardCount coins
  { s with
    roundCards := roundCards
    usedCardIds := used0 ++ roundCards.map (fun c => c.id)
    selectedCard := none
    placements := [none, none, none]
    awaitingNextRound := false }

/-- `Valuation.init(mode)` resets the session counters, then `setupRound`.
The state literal the module starts from. -/
def initialVState (mode : VMode) : VState :=
  { mode := some mode
    currentRound := 0
    correctCount := 0
    usedCardIds := []
    roundCards := []
    selectedCard := none
    placements := [none, none, none]
    roundHistory := []
    isPlaying := true
    awaitingNextRound := false }

/-- Result of `selectCard`. -/
inductive SelectResult where
  | ignored
  | selected (cardId : String)
  deriving Repr, DecidableEq

/-- `Valuation.selectCard(cardId)`. -/
def selectCard (cardId : String) (s : VState) : VState × SelectResult :=
  if s.awaitingNextRound then (s, .ignored)
  else ({ s with selectedCard := some cardId }, .selected cardId)

/-- Result of `placeCard`. -/
inductive PlaceResult where
  | ignored
  | placed (placements : List (Option String)) (canSubmit : Bool)
  deriving Repr, DecidableEq

/-- `Valuation.placeCard(position)`.  `position` is 0, 1 or 2 (the only
values the UI passes, per the source's parameter doc); `List.set` models the
in-range index assignment. -/
def placeCard (position : Nat) (s : VState) : VState × PlaceResult :=
  match s.selectedCard with
  | none => (s, .ignored)
  | some sel =>
    if s.awaitingNextRound then (s, .ignored)
    else
      let placements :=
        match s.placements.findIdx? (fun p => p = some sel) with
        | some existingPos => s.placements.set existingPos none
        | none => s.placements
      let placements := placements.set position (some sel)
      let s := { s with placements := placements, selectedCard := none }
      (s, .placed placements (placements.all (fun p => p ≠ none)))

/-- Result of `submitAnswer`. -/
inductive SubmitResult where
  | ignored
  | ok (isCorrect : Bool) (correctAnswer : VCorrect) (cards : List Card)
      (isGameOver : Bool) (score : Nat) (round : Nat)
  deriving Repr, DecidableEq

/-- `Valuation.submitAnswer(answer)`.  `answer` is the card id (2-card) or
display-value string (1-card); the 3-card branch ignores it and reads the
placements.  Placements are compared to the correct id sequence via
`JSON.stringify` equality, which on arrays of strings-or-null coincides with
structural equality.  Returns `none` on the crash paths (2-card with fewer
than two round cards, 1-card with none), where the JavaScript would throw. -/
def submitAnswer (answer : String) (s : VState) :
    Option (VState × SubmitResult) :=
  if s.awaitingNextRound then some (s, .ignored)
  else
    let outcome : Option (Bool × VCorrect × VAnswer) :=
      match s.mode with
      | some .threeCard =>
          let sortedCorrect := Cards.sortByValue s.roundCards
          let correctIds := sortedCorrect.map (fun c => c.id)
          some (s.placements = correctIds.map some, .ids correctIds,
            .ids s.placements)
      | some .twoCard =>
          match s.roundCards with
          | card1 :: card2 :: _ =>
              let val1 := Cards.parseValue card1.estimatedValue
              let val2 := Cards.parseValue card2.estimatedValue
              let gt : Bool := match val1, val2 with
                | some a, some b => a > b
                | _, _ => false
              let correct := if gt then card1.id else card2.id
              some (answer = correct, .str correct, .str answer)
          | _ => none
      | some .oneCard =>
          match s.roundCards with
          | card :: _ =>
              some (answer = card.estimatedValue, .str card.estimatedValue,
                .str answer)
          | [] => none
      | none => some (false, .nullAnswer, .str answer)
    outcome.map (fun (isCorrect, correctAnswer, userAnswer) =>
      let s := if isCorrect then { s with correctCount := s.correctCount + 1 }
        else s
      let s := { s with
        roundHistory := s.roundHistory ++
          [⟨s.currentRound + 1, s.roundCards, userAnswer, correctAnswer,
            isCorrect⟩]
        currentRound := s.currentRound + 1
        awaitingNextRound := true }
      (s, .ok isCorrect correctAnswer s.roundCards (5 ≤ s.currentRound)
        s.correctCount s.currentRound))

end Valuation

/-! ## GuessEngine (guess.js) -/

namespace Guess

/-- One `roundHistory` entry of the guess game. -/
structure GRound where
  round : Nat
  card : Card
  namePointsEarned : Nat
  yearPointsEarned : Nat
  totalPointsEarned : Nat
  attemptsUsed : Nat
  nameCorrect : Bool
  yearCorrect : Bool
  deriving Repr, DecidableEq

/-- `Guess.state`. -/
structure GState where
  currentRound : Nat
  totalPoints : Nat
  usedCardIds : List String
  currentCard : Option Card
  attemptsRemaining : Nat
  nameCorrect : Bool
  yearCorrect : Bool
  namePointsEarned : Nat
  yearPointsEarned : Nat
  roundHistory : List GRound
  isPlaying : Bool
  awaitingNextRound : Bool
  deriving Repr, DecidableEq

/-- The state literal the module starts from, with the session fields as
`Guess.init` resets them. -/
def initialGState : GState :=
  { currentRound := 0
    totalPoints := 0
    usedCardIds := []
    currentCard := none
    attemptsRemaining := 3
    nameCorrect := false
    yearCorrect := false
    namePointsEarned := 0
    yearPointsEarned := 0
    roundHistory := []
    isPlaying := true
    awaitingNextRound := false }

/-- `Guess.fuzzyMatch(input, card)`: the source's early returns, folded into
the equivalent disjunction in source order. -/
def fuzzyMatch (input : String) (card : Card) : Bool :=
  let fullName := jsToLower card.playerName
  let nameParts := jsSplitSpace fullName
  let inputParts := jsSplitSpace input
  let cardLastName := nameParts.getLastD ""
  let inputLastName := inputParts.getLastD ""
  (fullName == input) ||
  (decide (inputParts.length > 1) && (cardLastName == inputLastName)) ||
  (decide (inputParts.length = 1) && (cardLastName == input)) ||
  (decide (inputParts.length = 1) && (nameParts.headD "" == input)) ||
  (decide (inputParts.length = 1) && nameParts.any (fun part => part == input))

/-- `Guess.calculatePoints(attemptsUsed)`. -/
def calculatePoints (attemptsUsed : Nat) : Nat :=
  match attemptsUsed with
  | 1 => 3
  | 2 => 2
  | 3 => 1
  | _ => 0

/-- `Guess.getBlurAmount()`. -/
def getBlurAmount (s : GState) : Nat :=
  match s.attemptsRemaining with
  | 3 => 20
  | 2 => 10
  | 1 => 5
  | _ => 0

/-- `Guess.setupRound()`: draw a random unused card (pool reset when
exhausted) and reset the per-round fields.  `r` is the random draw
(`Math.floor(Math.random() * available.length)`, modelled as
`r % available.length`).  `none` models the crash on an empty catalog. -/
def setupRound (allCards : List Card) (r : Nat) (s : GState) :
    Option GState :=
  let available := allCards.filter (fun c => !(s.usedCardIds.contains c.id))
  let (used0, available) :=
    if available.isEmpty then ([], allCards) else (s.usedCardIds, available)
  match available.get? (r % available.length) with
  | none => none
  | some card =>
      some { s with
        currentCard := some card
        usedCardIds := used0 ++ [card.id]
        attemptsRemaining := 3
        nameCorrect := false
        yearCorrect := false
        namePointsEarned := 0
        yearPointsEarned := 0
        awaitingNextRound := false }

/-- The result object of `submitGuess`.  `year` input is the
`parseInt(year, 10)` value, `none` for `NaN`. -/
structure GOk where
  nameMatch : Bool
  yearMatch : Bool
  nameCorrect : Bool
  yearCorrect : Bool
  attemptsRemaining : Nat
  namePointsThisAttempt : Nat
  yearPointsThisAttempt : Nat
  namePointsEarned : Nat
  yearPointsEarned : Nat
  roundPointsEarned : Nat
  isRoundOver : Bool
  isGameOver : Bool
  totalPoints : Nat
  round : Nat
  correctAnswer : Card
  deriving Repr, DecidableEq

inductive GResult where
  | ignored
  | ok (r : GOk)
  deriving Repr, DecidableEq

/-- `Guess.submitGuess(playerName, year)`. -/
def submitGuess (playerName : String) (year : Option Int) (s : GState) :
    GState × GResult :=
  if s.awaitingNextRound then (s, .ignored)
  else
    match s.currentCard with
    | none => (s, .ignored)
    | some card =>
      let normalizedInput := jsToLower (jsTrim playerName)
      let nameMatch := !s.nameCorrect && fuzzyMatch normalizedInput card
      let yearMatch := !s.yearCorrect && (year == some card.year)
      let attemptsUsed := 4 - s.attemptsRemaining
      let namePointsThisAttempt :=
        if nameMatch then calculatePoints attemptsUsed else 0
      let yearPointsThisAttempt :=
        if yearMatch then calculatePoints attemptsUsed else 0
      let s := if nameMatch then
          { s with nameCorrect := true
                   namePointsEarned := namePointsThisAttempt
                   totalPoints := s.totalPoints + namePointsThisAttempt }
        else s
      let s := if yearMatch then
          { s with yearCorrect := true
                   yearPointsEarned := yearPointsThisAttempt
                   totalPoints := s.totalPoints + yearPointsThisAttempt }
        else s
      let s := { s with attemptsRemaining := s.attemptsRemaining - 1 }
      let bothCorrect := s.nameCorrect && s.yearCorrect
      let isRoundOver := bothCorrect || s.attemptsRemaining = 0
      let s := if isRoundOver then
          { s with
            awaitingNextRound := true
            roundHistory := s.roundHistory ++
              [⟨s.currentRound + 1, card, s.namePointsEarned,
                s.yearPointsEarned,
                s.namePointsEarned + s.yearPointsEarned,
                if bothCorrect then attemptsUsed else 3,
                s.nameCorrect, s.yearCorrect⟩]
            currentRound := s.currentRound + 1 }
        else s
      (s, .ok
        { nameMatch := nameMatch
          yearMatch := yearMatch
          nameCorrect := s.nameCorrect
          yearCorrect := s.yearCorrect
          attemptsRemaining := s.attemptsRemaining
          namePointsThisAttempt := namePointsThisAttempt
          yearPointsThisAttempt := yearPointsThisAttempt
          namePointsEarned := s.namePointsEarned
          yearPointsEarned := s.yearPointsEarned
          roundPointsEarned := s.namePointsEarned + s.yearPointsEarned
          isRoundOver := isRoundOver
          isGameOver := 5 ≤ s.currentRound
          totalPoints := s.totalPoints
          round := s.currentRound
          correctAnswer := card })

/-- The guess-game states reachable through normal play: a session is
initialised, guesses are submitted, and the next round is set up only after
a round ended and only while the game is not over.  The round-advance guard
is modelled from the spec's state machine (`Setup → AwaitingGuess → … →
(Setup | GameOver)`, five rounds): the controller that enforces it is not
part of the core sources. -/
inductive Reach (allCards : List Card) : GState → Prop where
  | init (r : Nat) (s : GState)
      (h : setupRound allCards r initialGState = some s) : Reach allCards s
  | submit (s : GState) (playerName : String) (year : Option Int)
      (hs : Reach allCards s) :
      Reach allCards (submitGuess playerName year s).1
  | next (s s' : GState) (r : Nat) (hs : Reach allCards s)
      (hAwait : s.awaitingNextRound = true) (hRound : s.currentRound < 5)
      (h : setupRound allCards r s = some s') : Reach allCards s'

end Guess

/-! ## Sample data for concrete instances

Representative records in the shape of `data/cards.json` entries. -/

def honusWagner : Card :=
  ⟨"honus-wagner", "Honus Wagner", 1909, "$8,000,000"⟩

def eddiePlank : Card :=
  ⟨"eddie-plank", "Eddie Plank", 1911, "$1,000,000"⟩

def babeRuth : Card :=
  ⟨"babe-ruth", "Babe Ruth", 1916, "$13,000,000+"⟩

def tyCobb : Card :=
  ⟨"ty-cobb", "Ty Cobb", 1911, "$200,000"⟩

/-! ## C9: fuzzy name matching -/

/-- C9: `fuzzyMatch(input, card)`, for input already trimmed and lowercased,
returns true if and only if (a) input equals the card's full lowercased
name, or (b) input has multiple words and its last token equals the card's
last name token, or (c) input is a single word equal to the card's last
name, first name, or any individual name token; and the four concrete
examples: "wagner" and "ed plank" and "babe" match Honus Wagner, Eddie
Plank and Babe Ruth, while "smith" does not match Honus Wagner. -/
theorem fuzzyMatch_characterisation :
    (∀ (input : String) (card : Card),
      Guess.fuzzyMatch input card = true ↔
        (jsToLower card.playerName = input ∨
         (1 < (jsSplitSpace input).length ∧
          (jsSplitSpace (jsToLower card.playerName)).getLastD "" =
            (jsSplitSpace input).getLastD "") ∨
         ((jsSplitSpace input).length = 1 ∧
          ((jsSplitSpace (jsToLower card.playerName)).getLastD "" = input ∨
           (jsSplitSpace (jsToLower card.playerName)).headD "" = input ∨
           input ∈ jsSplitSpace (jsToLower card.playerName))))) ∧
    Guess.fuzzyMatch "wagner" honusWagner = true ∧
    Guess.fuzzyMatch "ed plank" eddiePlank = true ∧
    Guess.fuzzyMatch "babe" babeRuth = true ∧
    Guess.fuzzyMatch "smith" honusWagner = false := by
  refine ⟨fun input card => ?_, by decide, by decide, by decide, by decide⟩
  simp only [Guess.fuzzyMatch, Bool.or_eq_true, Bool.and_eq_true,
    beq_iff_eq, decide_eq_true_eq, List.any_eq_true, gt_iff_lt,
    exists_eq_right]
  tauto

/-! ## Ledger lemmas shared by C1 and C2 -/

namespace HighScores

/-- The stored best entry for a mode/key as `save` itself reads it: the raw
nested-map entry of the migrated view (not masked by `get`'s `|| null`). -/
def storedBest (gameType : GameType) (difficulty : String)
    (storage : Option Store) : Option Nat :=
  ((getAll storage).field gameType).bind (fun e => lookupE e difficulty)

/-- A store in the new format: the `matching` or `valuation` property is
present (truthy), so `migrateScores` passes it through. -/
def NewFormat (s : Store) : Prop :=
  s.matching.isSome ∨ s.valuation.isSome

theorem migrateScores_newFormat (s : Store) (h : NewFormat s) :
    migrateScores s = s := by
  unfold migrateScores
  rcases h with h | h <;> simp [h]

theorem newFormat_getAll (st : Option Store) : NewFormat (getAll st) := by
  unfold getAll migrateScores
  split
  · rename_i h
    rcases Bool.or_eq_true _ _ |>.mp h with h1 | h1
    · exact Or.inl h1
    · exact Or.inr h1
  · exact Or.inl rfl

theorem newFormat_setField (s : Store) (g : GameType) (e : Entries)
    (h : NewFormat s) : NewFormat (s.setField g e) := by
  cases g with
  | matching => exact Or.inl rfl
  | valuation => exact Or.inr rfl
  | guess => exact h

theorem field_setField_self (s : Store) (g : GameType) (e : Entries) :
    (s.setField g e).field g = some e := by
  cases g <;> rfl

theorem lookupE_setE_self (l : Entries) (k : String) (v : Nat) :
    lookupE (setE l k v) k = some v := by
  induction l with
  | nil => simp [setE, lookupE, List.find?]
  | cons p rest ih =>
      by_cases h : p.1 = k
      · simp [setE, h, lookupE, List.find?]
      · simpa [setE, h, lookupE, List.find?] using ih

/-- After a successful `save`, the raw stored entry for that mode/key is the
saved score. -/
theorem storedBest_save (g : GameType) (k : String) (score : Nat)
    (st : Option Store) (h : (save g k score st).2 = true) :
    storedBest g k (save g k score st).1 = some score := by
  unfold save at h ⊢
  set scores0 := getAll st with hscores0
  have hnf0 : NewFormat scores0 := newFormat_getAll st
  set scores := match scores0.field g with
    | none => scores0.setField g []
    | some _ => scores0 with hscores
  have hnf : NewFormat scores := by
    rw [hscores]
    split
    · exact newFormat_setField _ _ _ hnf0
    · exact hnf0
  by_cases hrec :
      isNewRecord g ((scores.field g).bind (fun e => lookupE e k)) score = true
  · simp only [hrec, if_true]
    unfold storedBest getAll
    simp only [Option.getD_some]
    rw [migrateScores_newFormat _ (newFormat_setField _ _ _ hnf)]
    rw [field_setField_self]
    simp [lookupE_setE_self]
  · rw [if_neg (by simpa using hrec)] at h
    simp at h

end HighScores

/-! ## C1: save overwrites only on strict improvement -/

/-- C1 counterexample: the ledger treats a stored best of `0` as absent
(`!currentBest`).  After `save('valuation', '3-card', 0)` records a best of
`0`, submitting the *equal* score `0` again returns `true` and stores again —
the claim requires it to store nothing and return `false`. -/
theorem save_equal_zero_returns_true :
    HighScores.storedBest .valuation "3-card"
      (HighScores.save .valuation "3-card" 0 none).1 = some 0 ∧
    (HighScores.save .valuation "3-card" 0
      ((HighScores.save .valuation "3-card" 0 none).1)).2 = true := by
  decide

/-- C1 (amended): provided the stored best score is nonzero, `save` stores
exactly when the candidate is strictly better under the mode's comparator
(lower for matching, higher for valuation and guess), returns whether it
stored, and leaves the storage untouched otherwise — in particular an equal
score stores nothing and returns false. -/
theorem save_strict_improvement (g : HighScores.GameType) (k : String)
    (score : Nat) (st : Option HighScores.Store) (b : Nat)
    (hb : HighScores.storedBest g k st = some b) (hbz : b ≠ 0) :
    ((HighScores.save g k score st).2 = true ↔
      (match g with
       | .matching => score < b
       | .valuation => b < score
       | .guess => b < score)) ∧
    ((HighScores.save g k score st).2 = true →
      HighScores.storedBest g k (HighScores.save g k score st).1 =
        some score) ∧
    ((HighScores.save g k score st).2 = false →
      (HighScores.save g k score st).1 = st) := by
  obtain ⟨e, hf, hl⟩ : ∃ e, (HighScores.getAll st).field g = some e ∧
      HighScores.lookupE e k = some b := by
    unfold HighScores.storedBest at hb
    cases hfe : (HighScores.getAll st).field g with
    | none => rw [hfe] at hb; simp at hb
    | some e => rw [hfe] at hb; exact ⟨e, rfl, by simpa using hb⟩
  refine ⟨?_, HighScores.storedBest_save g k score st, ?_⟩
  · cases b with
    | zero => exact absurd rfl hbz
    | succ m =>
        cases g <;>
          simp only [HighScores.save, hf, hl, HighScores.isNewRecord,
            Option.bind] <;>
          split_ifs with h <;> simp at h <;> simp [h]
  · intro hfalse
    unfold HighScores.save at hfalse ⊢
    by_cases hrec : HighScores.isNewRecord g
        (((match (HighScores.getAll st).field g with
            | none => (HighScores.getAll st).setField g []
            | some _ => HighScores.getAll st).field g).bind
          (fun e => HighScores.lookupE e k)) score = true
    · rw [if_pos hrec] at hfalse
      simp at hfalse
    · rw [if_neg hrec] at hfalse ⊢

/-- Concrete instance of `save_strict_improvement`: with best 30 stored for
matching difficulty "20", saving 25 (strictly better, lower wins) returns
true. -/
theorem save_strict_improvement_witness :
    (HighScores.save .matching "20" 25
      ((HighScores.save .matching "20" 30 none).1)).2 = true :=
  (save_strict_improvement .matching "20" 25
    ((HighScores.save .matching "20" 30 none).1) 30
    (by decide) (by decide)).1.mpr (by decide)

/-! ## C2: save/get round-trip -/

/-- C2 counterexample: `save('guess', 'best', 0)` from empty storage returns
true, but the immediately following `get('guess', 'best')` returns `null`
(the stored `0` is falsy under `|| null`), not the saved score. -/
theorem save_zero_get_null :
    (HighScores.save .guess "best" 0 none).2 = true ∧
    HighScores.get .guess "best" ((HighScores.save .guess "best" 0 none).1) =
      none := by
  decide

/-- C2 (amended): for every mode (including 'guess', whose entries survive
the legacy-format migration on the next read), every key, every storage
state, and every *nonzero* score, a `save` that returns true is followed by
a `get` that returns exactly that score. -/
theorem save_get_roundtrip (g : HighScores.GameType) (k : String)
    (score : Nat) (st : Option HighScores.Store) (hz : score ≠ 0)
    (hsaved : (HighScores.save g k score st).2 = true) :
    HighScores.get g k ((HighScores.save g k score st).1) = some score := by
  have hbest := HighScores.storedBest_save g k score st hsaved
  unfold HighScores.storedBest at hbest
  unfold HighScores.get
  simp only []
  rw [hbest]
  cases score with
  | zero => exact absurd rfl hz
  | succ m => rfl

/-- Concrete instance of `save_get_roundtrip`: a guess-mode best of 12 saved
into empty storage is read back by `get`. -/
theorem save_get_roundtrip_witness :
    HighScores.get .guess "best"
      ((HighScores.save .guess "best" 12 none).1) = some 12 :=
  save_get_roundtrip .guess "best" 12 none (by decide) (by decide)

/-! ## Sorting lemmas for C4 -/

namespace Cards

theorem insertVal_perm (c : Card) (l : List Card) :
    (insertVal c l).Perm (c :: l) := by
  induction l with
  | nil => exact List.Perm.refl _
  | cons d ds ih =>
      unfold insertVal
      split
      · exact (ih.cons d).trans (List.Perm.swap c d ds)
      · exact List.Perm.refl _

theorem sortByValue_perm (l : List Card) : (sortByValue l).Perm l := by
  induction l with
  | nil => exact List.Perm.refl _
  | cons x xs ih => exact (insertVal_perm x _).trans (ih.cons x)

theorem valGt_trans {a b c : Card} (h1 : valGt a b = true)
    (h2 : valGt b c = true) : valGt a c = true := by
  unfold valGt at h1 h2 ⊢
  cases ha : parseValue a.estimatedValue <;>
    cases hb : parseValue b.estimatedValue <;>
    cases hc : parseValue c.estimatedValue <;>
    simp_all <;> omega

theorem valGt_total {a b : Card}
    (ha : (parseValue a.estimatedValue).isSome = true)
    (hb : (parseValue b.estimatedValue).isSome = true)
    (hne : parseValue a.estimatedValue ≠ parseValue b.estimatedValue) :
    valGt a b = true ∨ valGt b a = true := by
  unfold valGt
  cases hpa : parseValue a.estimatedValue with
  | none => rw [hpa] at ha; simp at ha
  | some x =>
    cases hpb : parseValue b.estimatedValue with
    | none => rw [hpb] at hb; simp at hb
    | some y =>
      rw [hpa, hpb] at hne
      simp only [decide_eq_true_eq]
      rcases lt_trichotomy x y with h | h | h
      · exact Or.inr h
      · exact absurd (by rw [h]) hne
      · exact Or.inl h

theorem insertVal_pairwise (c : Card) (l : List Card)
    (hl : l.Pairwise (fun a b => valGt a b = true))
    (hcmp : ∀ b ∈ l, valGt b c = true ∨ valGt c b = true) :
    (insertVal c l).Pairwise (fun a b => valGt a b = true) := by
  induction l with
  | nil => simp [insertVal]
  | cons d ds ih =>
      unfold insertVal
      split
      · rename_i hdc
        refine List.Pairwise.cons ?_
          (ih (List.Pairwise.of_cons hl) (fun b hb => hcmp b (by simp [hb])))
        intro x hx
        rcases List.mem_cons.mp ((insertVal_perm c ds).mem_iff.mp hx) with
          rfl | hx
        · exact hdc
        · exact List.rel_of_pairwise_cons hl hx
      · rename_i hdc
        have hcd : valGt c d = true := by
          rcases hcmp d (by simp) with h | h
          · exact absurd h hdc
          · exact h
        refine List.Pairwise.cons ?_ hl
        intro x hx
        rcases List.mem_cons.mp hx with rfl | hx
        · exact hcd
        · rcases hcmp x (List.mem_cons_of_mem d hx) with h | h
          · exact absurd (valGt_trans (List.rel_of_pairwise_cons hl hx) h)
              hdc
          · exact h

theorem sortByValue_pairwise (l : List Card)
    (hsome : ∀ c ∈ l, (parseValue c.estimatedValue).isSome = true)
    (hnd : (l.map (fun c => parseValue c.estimatedValue)).Nodup) :
    (sortByValue l).Pairwise (fun a b => valGt a b = true) := by
  induction l with
  | nil => simp [sortByValue]
  | cons x xs ih =>
      have hstep : sortByValue (x :: xs) = insertVal x (sortByValue xs) := rfl
      rw [hstep]
      rw [List.map_cons, List.nodup_cons] at hnd
      refine insertVal_pairwise x (sortByValue xs)
        (ih (fun c hc => hsome c (by simp [hc])) hnd.2) ?_
      intro b hb
      have hbxs : b ∈ xs := (sortByValue_perm xs).mem_iff.mp hb
      have hne : parseValue b.estimatedValue ≠ parseValue x.estimatedValue := by
        intro h
        exact hnd.1 (h ▸ List.mem_map_of_mem _ hbxs)
      exact valGt_total (hsome b (List.mem_cons_of_mem x hbxs))
        (hsome x (List.mem_cons_self x xs)) hne

end Cards

/-! ## C4: rank3 correctness criterion -/

namespace Valuation

/-- The `isCorrect` flag of a `submitAnswer` result object, `none` when the
submission was ignored. -/
def SubmitResult.isCorrectOf : SubmitResult → Option Bool
  | .ignored => none
  | .ok c _ _ _ _ _ => some c

end Valuation

/-- C4: in a rank3 round not awaiting the next round, with the round cards
parsing to pairwise-distinct numeric values (the sampling invariant),
`submitAnswer` reports `isCorrect` true if and only if the placement array
equals, as an exact id sequence, the round's cards sorted by descending
parsed value; `sortByValue` indeed produces a permutation of the round
cards in strictly descending value order. -/
theorem submitAnswer_rank3 (s : Valuation.VState) (a : String)
    (hmode : s.mode = some .threeCard)
    (hawait : s.awaitingNextRound = false)
    (hsome : ∀ c ∈ s.roundCards,
      (Cards.parseValue c.estimatedValue).isSome = true)
    (hnd : (s.roundCards.map
      (fun c => Cards.parseValue c.estimatedValue)).Nodup) :
    ((Valuation.submitAnswer a s).map
        (fun p => Valuation.SubmitResult.isCorrectOf p.2) = some (some true) ↔
      s.placements =
        (Cards.sortByValue s.roundCards).map (fun c => some c.id)) ∧
    (Cards.sortByValue s.roundCards).Perm s.roundCards ∧
    (Cards.sortByValue s.roundCards).Pairwise
      (fun c d => Cards.valGt c d = true) := by
  refine ⟨?_, Cards.sortByValue_perm _, Cards.sortByValue_pairwise _ hsome hnd⟩
  simp [Valuation.submitAnswer, hmode, hawait,
    Valuation.SubmitResult.isCorrectOf, List.map_map, Function.comp_def]

/-- A concrete rank3 round for the `submitAnswer_rank3` instance: three
cards of distinct values, placed in descending-value order. -/
def rank3Session : Valuation.VState :=
  { Valuation.initialVState .threeCard with
    roundCards := [babeRuth, honusWagner, eddiePlank]
    placements := [some "babe-ruth", some "honus-wagner",
      some "eddie-plank"] }

/-- Concrete instance of `submitAnswer_rank3`: the descending-order
placement is reported correct. -/
theorem submitAnswer_rank3_witness :
    (Valuation.submitAnswer "" rank3Session).map
      (fun p => Valuation.SubmitResult.isCorrectOf p.2) = some (some true) :=
  ((submitAnswer_rank3 rank3Session "" rfl rfl (by decide) (by decide)).1).mpr
    (by decide)

/-! ## C8: unique values in every round -/

/-- The selection loop keeps at most one card per parsed value, and never a
value from `usedValues`. -/
theorem selectUniqueLoop_values (l : List Card) (count : Nat)
    (used : List (Option Int)) :
    (((Valuation.selectUniqueLoop l count used).map
      (fun c => Cards.parseValue c.estimatedValue)).Nodup ∧
     ∀ c ∈ Valuation.selectUniqueLoop l count used,
        Cards.parseValue c.estimatedValue ∉ used) := by
  induction l generalizing count used with
  | nil => simp [Valuation.selectUniqueLoop]
  | cons c cs ih =>
      by_cases hv : Cards.parseValue c.estimatedValue ∈ used
      · have heq : Valuation.selectUniqueLoop (c :: cs) count used =
            Valuation.selectUniqueLoop cs count used := by
          simp [Valuation.selectUniqueLoop, hv]
        rw [heq]
        exact ih count used
      · by_cases hc : count = 1
        · have heq : Valuation.selectUniqueLoop (c :: cs) count used = [c] := by
            simp [Valuation.selectUniqueLoop, hv, hc]
          rw [heq]
          simpa using hv
        · obtain ⟨h1, h2⟩ :=
            ih (count - 1) (Cards.parseValue c.estimatedValue :: used)
          have heq : Valuation.selectUniqueLoop (c :: cs) count used =
              c :: Valuation.selectUniqueLoop cs (count - 1)
                (Cards.parseValue c.estimatedValue :: used) := by
            simp [Valuation.selectUniqueLoop, hv, hc]
          rw [heq]
          constructor
          · rw [List.map_cons, List.nodup_cons]
            refine ⟨?_, h1⟩
            intro hmem
            obtain ⟨x, hx, hfx⟩ := List.mem_map.mp hmem
            refine (h2 x hx) ?_
            rw [hfx]
            exact List.mem_cons_self _ _
          · intro x hx
            rcases List.mem_cons.mp hx with rfl | hx
            · exact hv
            · intro hxu
              exact (h2 x hx) (List.mem_cons_of_mem _ hxu)

/-- C8: every round set up by `setupRound` — in any session state, any
sub-mode, including after the no-repeat pool was reset — holds cards whose
parsed numeric values are pairwise distinct. -/
theorem setupRound_distinct_values (allCards : List Card)
    (coins : List Bool) (s : Valuation.VState) :
    ((Valuation.setupRound allCards coins s).roundCards.map
      (fun c => Cards.parseValue c.estimatedValue)).Nodup := by
  simp only [Valuation.setupRound, Valuation.selectCardsWithUniqueValues]
  exact (selectUniqueLoop_values _ _ _).1

/-! ## C10: selectRandom sampling -/

namespace Cards

theorem insertR_perm (x : α) (l : List α) (coins : List Bool) :
    (insertR x l coins).1.Perm (x :: l) := by
  induction l generalizing coins with
  | nil => exact List.Perm.refl _
  | cons d ds ih =>
      cases coins with
      | nil => exact List.Perm.refl _
      | cons c cs =>
          cases c with
          | false => exact List.Perm.refl _
          | true =>
              have hstep : (insertR x (d :: ds) (true :: cs)).1 =
                  d :: (insertR x ds cs).1 := by
                simp [insertR]
              rw [hstep]
              exact ((ih cs).cons d).trans (List.Perm.swap x d ds)

theorem sortR_perm (l : List α) (coins : List Bool) :
    (sortR l coins).1.Perm l := by
  induction l generalizing coins with
  | nil => exact List.Perm.refl _
  | cons x xs ih =>
      have hstep : (sortR (x :: xs) coins).1 =
          (insertR x (sortR xs coins).1 (sortR xs coins).2).1 := by
        simp [sortR]
      rw [hstep]
      exact (insertR_perm x _ _).trans ((ih coins).cons x)

end Cards

/-- All eight fair-coin sequences of length 3, each equally likely under
the random source. -/
def allCoinTriples : List (List Bool) :=
  [[false, false, false], [false, false, true], [false, true, false],
   [false, true, true], [true, false, false], [true, false, true],
   [true, true, false], [true, true, true]]

/-- C10 counterexample: over the eight equally likely coin sequences of
length 3, `selectRandom(3)` on a 3-card catalog produces the ordering
`[ruth, wagner, plank]` twice but `[plank, wagner, ruth]` once, so the
orderings are not equally likely: the random-comparator shuffle is not a
uniform sample. -/
theorem selectRandom_not_uniform :
    (allCoinTriples.filter (fun cs =>
      Cards.selectRandom [babeRuth, honusWagner, eddiePlank] 3 cs =
        [babeRuth, honusWagner, eddiePlank])).length = 2 ∧
    (allCoinTriples.filter (fun cs =>
      Cards.selectRandom [babeRuth, honusWagner, eddiePlank] 3 cs =
        [eddiePlank, honusWagner, babeRuth])).length = 1 := by
  decide

/-- C10 (amended): `selectRandom(n)` does draw `n` distinct cards from the
full catalog without replacement, independent of any session history (it
reads only the catalog and the random source) — but the ordering
distribution is that of a random-comparator sort, not uniform. -/
theorem selectRandom_sample (allCards : List Card) (n : Nat)
    (coins : List Bool) (h : allCards.Nodup) :
    (Cards.selectRandom allCards n coins).length = min n allCards.length ∧
    (∀ c ∈ Cards.selectRandom allCards n coins, c ∈ allCards) ∧
    (Cards.selectRandom allCards n coins).Nodup := by
  have hperm := Cards.sortR_perm allCards coins
  refine ⟨?_, ?_, ?_⟩
  · unfold Cards.selectRandom
    rw [List.length_take, hperm.length_eq]
  · intro c hc
    exact hperm.mem_iff.mp (List.take_sublist _ _ |>.mem hc)
  · exact List.Nodup.sublist (List.take_sublist _ _)
      (hperm.nodup_iff.mpr h)

/-- Concrete instance of `selectRandom_sample` on a distinct 3-card
catalog. -/
theorem selectRandom_sample_witness :
    (Cards.selectRandom [babeRuth, honusWagner, eddiePlank] 2
      [true, false, true]).length = 2 ∧
    (∀ c ∈ Cards.selectRandom [babeRuth, honusWagner, eddiePlank] 2
      [true, false, true], c ∈ [babeRuth, honusWagner, eddiePlank]) ∧
    (Cards.selectRandom [babeRuth, honusWagner, eddiePlank] 2
      [true, false, true]).Nodup :=
  selectRandom_sample [babeRuth, honusWagner, eddiePlank] 2
    [true, false, true] (by decide)

/-! ## Matching step lemma shared by the flip claims -/

namespace Game

/-- Single-step contract of `flipCard`: an ignored flip leaves the state
unchanged, and `turns` grows by one exactly when the flip completed a pair
(`match`/`mismatch` result), by zero otherwise. -/
theorem flipCard_spec (s : MatchState) (t : String) :
    ((flipCard s t).2 = .ignored → (flipCard s t).1 = s) ∧
    (flipCard s t).1.turns =
      s.turns + (if isCompleted (flipCard s t).2 then 1 else 0) := by
  unfold flipCard
  by_cases h1 : (s.isLocked || !s.isPlaying) = true
  · simp [h1, isCompleted]
  · rw [if_neg h1]
    cases hf : s.cards.find? (fun c => c.tileId = t) with
    | none => simp [isCompleted]
    | some card =>
      dsimp only
      by_cases h2 : (s.flippedCards.find? (fun c => c.tileId = t)).isSome = true
      · simp [h2, isCompleted]
      · rw [if_neg h2]
        by_cases h3 : card.id ∈ s.matchedPairs
        · simp [h3, isCompleted]
        · cases hfc : s.flippedCards with
          | nil => simp [h3, hfc, isCompleted]
          | cons f rest =>
            cases rest with
            | nil =>
                by_cases h4 : f.id = card.id
                · simp [h3, hfc, h4, handleMatch, isCompleted]
                · simp [h3, hfc, h4, handleMatch, handleMismatch, isCompleted]
            | cons g gs =>
                by_cases h4 : f.id = g.id
                · simp [h3, hfc, h4, handleMatch, isCompleted]
                · simp [h3, hfc, h4, handleMatch, handleMismatch,
                    isCompleted]

end Game

/-! ## C6: ignored results leave the state unchanged -/

/-- C6: every engine operation that reports an ignored result — `flipCard`
in any of its reject cases, `selectCard`, `placeCard` and `submitAnswer` of
the valuation engine, and `submitGuess` of the guess engine — leaves the
session state exactly as it was. -/
theorem ignored_results_preserve_state :
    (∀ (s : Game.MatchState) (t : String),
      (Game.flipCard s t).2 = .ignored → (Game.flipCard s t).1 = s) ∧
    (∀ (s : Valuation.VState) (cid : String),
      (Valuation.selectCard cid s).2 = .ignored →
        (Valuation.selectCard cid s).1 = s) ∧
    (∀ (s : Valuation.VState) (pos : Nat),
      (Valuation.placeCard pos s).2 = .ignored →
        (Valuation.placeCard pos s).1 = s) ∧
    (∀ (s : Valuation.VState) (a : String) (s2 : Valuation.VState)
        (res : Valuation.SubmitResult),
      Valuation.submitAnswer a s = some (s2, res) → res = .ignored →
        s2 = s) ∧
    (∀ (s : Guess.GState) (n : String) (y : Option Int),
      (Guess.submitGuess n y s).2 = .ignored →
        (Guess.submitGuess n y s).1 = s) := by
  refine ⟨fun s t => (Game.flipCard_spec s t).1, ?_, ?_, ?_, ?_⟩
  · intro s cid h
    unfold Valuation.selectCard at h ⊢
    by_cases hw : s.awaitingNextRound = true
    · simp [hw]
    · simp [hw] at h
  · intro s pos h
    unfold Valuation.placeCard at h ⊢
    cases hsel : s.selectedCard with
    | none => simp [hsel]
    | some sel =>
        by_cases hw : s.awaitingNextRound = true
        · simp [hsel, hw]
        · simp [hsel, hw] at h
  · intro s a s2 res h hres
    subst hres
    unfold Valuation.submitAnswer at h
    by_cases hw : s.awaitingNextRound = true
    · rw [if_pos hw] at h
      simp only [Option.some.injEq, Prod.mk.injEq] at h
      exact h.1.symm
    · rw [if_neg hw] at h
      split at h <;> simp_all
  · intro s n y h
    unfold Guess.submitGuess at h ⊢
    by_cases hw : s.awaitingNextRound = true
    · simp [hw]
    · cases hc : s.currentCard with
      | none => simp [hw, hc]
      | some card => simp [hw, hc] at h

/-- A locked matching session for concrete instances. -/
def lockedSession : Game.MatchState :=
  { cards := [⟨"babe-ruth", "babe-ruth-a"⟩, ⟨"babe-ruth", "babe-ruth-b"⟩]
    flippedCards := []
    matchedPairs := []
    turns := 0
    isLocked := true
    cardCount := 1
    isPlaying := true }

/-- A valuation session awaiting the next round. -/
def awaitingValuation : Valuation.VState :=
  { Valuation.initialVState .threeCard with awaitingNextRound := true }

/-- A guess session awaiting the next round. -/
def awaitingGuess : Guess.GState :=
  { Guess.initialGState with awaitingNextRound := true }

/-- Concrete instances of `ignored_results_preserve_state`: each operation,
in a rejecting state, returns ignored and leaves that state intact. -/
theorem ignored_results_preserve_state_witness :
    (Game.flipCard lockedSession "babe-ruth-a").1 = lockedSession ∧
    (Valuation.selectCard "c" awaitingValuation).1 = awaitingValuation ∧
    (Valuation.placeCard 0 (Valuation.initialVState .threeCard)).1 =
      Valuation.initialVState .threeCard ∧
    awaitingValuation = awaitingValuation ∧
    (Guess.submitGuess "ruth" none awaitingGuess).1 = awaitingGuess :=
  ⟨ignored_results_preserve_state.1 lockedSession "babe-ruth-a" (by decide),
   ignored_results_preserve_state.2.1 awaitingValuation "c" (by decide),
   ignored_results_preserve_state.2.2.1 (Valuation.initialVState .threeCard)
     0 (by decide),
   ignored_results_preserve_state.2.2.2.1 awaitingValuation ""
     awaitingValuation .ignored (by decide) rfl,
   ignored_results_preserve_state.2.2.2.2 awaitingGuess "ruth" none
     (by decide)⟩

/-! ## C5: the mismatch/lock/unlock protocol -/

/-- C5: from a playing, unlocked state with an empty flip buffer, flipping
two tiles of different cards first reports `flipped`, then reports
`mismatch` carrying the unlock capability while the session enters the
locked state; every flip while locked is ignored and changes nothing;
invoking `unlock` clears the flip buffer and releases the lock, after which
a valid flip is accepted again. -/
theorem mismatch_lock_unlock_protocol (s : Game.MatchState)
    (t1 t2 : Cards.Tile)
    (hlock : s.isLocked = false) (hplay : s.isPlaying = true)
    (hbuf : s.flippedCards = [])
    (hfind1 : s.cards.find? (fun c => c.tileId = t1.tileId) = some t1)
    (hfind2 : s.cards.find? (fun c => c.tileId = t2.tileId) = some t2)
    (hm1 : t1.id ∉ s.matchedPairs) (hm2 : t2.id ∉ s.matchedPairs)
    (htile : t1.tileId ≠ t2.tileId) (hid : t1.id ≠ t2.id) :
    Game.flipCard s t1.tileId =
      ({ s with flippedCards := [t1] }, .flipped t1) ∧
    Game.flipCard { s with flippedCards := [t1] } t2.tileId =
      ({ s with
          flippedCards := [t1, t2]
          turns := s.turns + 1
          isLocked := true },
        .mismatch t1 t2 (s.turns + 1)) ∧
    (∀ t : String, Game.flipCard
        { s with
            flippedCards := [t1, t2]
            turns := s.turns + 1
            isLocked := true } t =
      ({ s with
          flippedCards := [t1, t2]
          turns := s.turns + 1
          isLocked := true }, .ignored)) ∧
    Game.unlock
        { s with
            flippedCards := [t1, t2]
            turns := s.turns + 1
            isLocked := true } =
      { s with
          flippedCards := []
          turns := s.turns + 1
          isLocked := false } ∧
    (∀ t3 : Cards.Tile,
      s.cards.find? (fun c => c.tileId = t3.tileId) = some t3 →
      t3.id ∉ s.matchedPairs →
      (Game.flipCard
        { s with
            flippedCards := []
            turns := s.turns + 1
            isLocked := false } t3.tileId).2 = .flipped t3) := by
  refine ⟨?_, ?_, ?_, ?_, ?_⟩
  · simp [Game.flipCard, hlock, hplay, hbuf, hfind1, hm1]
  · have hnofind : ([t1].find? (fun c => c.tileId = t2.tileId)) = none := by
      have hd : decide (t1.tileId = t2.tileId) = false := decide_eq_false htile
      simp [List.find?, hd]
    simp [Game.flipCard, hlock, hplay, hfind2, hm2, hnofind, hid,
      Game.handleMismatch]
  · intro t
    simp [Game.flipCard]
  · simp [Game.unlock]
  · intro t3 hfind3 hm3
    simp [Game.flipCard, hlock, hplay, hfind3, hm3]

/-- A fresh two-pair matching session. -/
def mismatchSession : Game.MatchState :=
  { cards := [⟨"babe-ruth", "babe-ruth-a"⟩, ⟨"babe-ruth", "babe-ruth-b"⟩,
      ⟨"honus-wagner", "honus-wagner-a"⟩, ⟨"honus-wagner", "honus-wagner-b"⟩]
    flippedCards := []
    matchedPairs := []
    turns := 0
    isLocked := false
    cardCount := 2
    isPlaying := true }

def tileRA : Cards.Tile := ⟨"babe-ruth", "babe-ruth-a"⟩

def tileWA : Cards.Tile := ⟨"honus-wagner", "honus-wagner-a"⟩

/-- Concrete run of `mismatch_lock_unlock_protocol` on `mismatchSession`:
flip a Ruth tile and a Wagner tile, observe the mismatch and lock, see a
locked flip ignored, unlock, and have a new flip accepted. -/
theorem mismatch_lock_unlock_protocol_witness :
    Game.flipCard mismatchSession tileRA.tileId =
      ({ mismatchSession with flippedCards := [tileRA] }, .flipped tileRA) ∧
    Game.flipCard { mismatchSession with flippedCards := [tileRA] }
        tileWA.tileId =
      ({ mismatchSession with
          flippedCards := [tileRA, tileWA]
          turns := mismatchSession.turns + 1
          isLocked := true },
        .mismatch tileRA tileWA (mismatchSession.turns + 1)) ∧
    Game.flipCard
        { mismatchSession with
            flippedCards := [tileRA, tileWA]
            turns := mismatchSession.turns + 1
            isLocked := true } tileWA.tileId =
      ({ mismatchSession with
          flippedCards := [tileRA, tileWA]
          turns := mismatchSession.turns + 1
          isLocked := true }, .ignored) ∧
    Game.unlock
        { mismatchSession with
            flippedCards := [tileRA, tileWA]
            turns := mismatchSession.turns + 1
            isLocked := true } =
      { mismatchSession with
          flippedCards := []
          turns := mismatchSession.turns + 1
          isLocked := false } ∧
    (Game.flipCard
        { mismatchSession with
            flippedCards := []
            turns := mismatchSession.turns + 1
            isLocked := false } tileWA.tileId).2 = .flipped tileWA := by
  have C := mismatch_lock_unlock_protocol mismatchSession tileRA tileWA
    rfl rfl rfl (by decide) (by decide) (by decide) (by decide)
    (by decide) (by decide)
  exact ⟨C.1, C.2.1, C.2.2.1 tileWA.tileId, C.2.2.2.1,
    C.2.2.2.2 tileWA (by decide) (by decide)⟩

/-! ## C7: turns counts completed flip-pairs -/

/-- Along a run, `turns` grows by exactly the number of flips that
completed a pair. -/
theorem run_turns (acts : List Game.MAction) (s : Game.MatchState) :
    (Game.run s acts).1.turns = s.turns + (Game.run s acts).2 := by
  induction acts generalizing s with
  | nil => simp [Game.run]
  | cons a rest ih =>
      cases a with
      | flip t =>
          have hstep := (Game.flipCard_spec s t).2
          simp only [Game.run]
          rw [ih ((Game.flipCard s t).1), hstep]
          split <;> omega
      | unlock =>
          simp only [Game.run]
          rw [ih (Game.unlock s)]
          rfl

/-- C7: in every matching session started by `init` and for every sequence
of caller inputs, the final `turns` equals exactly the number of flips that
completed a pair (a `match` or `mismatch` result) — a single flip never
changes `turns`, a completing flip raises it by exactly one. -/
theorem turns_counts_completed_pairs (allCards : List Card)
    (cardCount : Nat) (coins : List Bool) (js : List Nat)
    (acts : List Game.MAction) :
    (Game.run (Game.init allCards cardCount coins js) acts).1.turns =
      (Game.run (Game.init allCards cardCount coins js) acts).2 ∧
    (∀ (s : Game.MatchState) (t : String),
      (Game.flipCard s t).1.turns =
        s.turns +
          (if Game.isCompleted (Game.flipCard s t).2 then 1 else 0)) := by
  constructor
  · have h := run_turns acts (Game.init allCards cardCount coins js)
    rw [h]
    have hz : (Game.init allCards cardCount coins js).turns = 0 := rfl
    rw [hz, Nat.zero_add]
  · exact fun s t => (Game.flipCard_spec s t).2

/-! ## C3: guess scoring bounds -/

namespace Guess

theorem calculatePoints_le_three (k : Nat) : calculatePoints k ≤ 3 := by
  unfold calculatePoints
  split <;> omega

/-- The inductive invariant of reachable guess states: per-component round
points are at most 3, at most five rounds, a round in progress has 1-3
attempts remaining and is not past round 5, points are only recorded for
correct components, and the running total is bounded by six points per
finished round plus the current round's tally. -/
def Inv (s : GState) : Prop :=
  s.namePointsEarned ≤ 3 ∧
  s.yearPointsEarned ≤ 3 ∧
  s.currentRound ≤ 5 ∧
  (s.awaitingNextRound = false → s.currentRound < 5) ∧
  (s.awaitingNextRound = false →
    1 ≤ s.attemptsRemaining ∧ s.attemptsRemaining ≤ 3) ∧
  (s.nameCorrect = false → s.namePointsEarned = 0) ∧
  (s.yearCorrect = false → s.yearPointsEarned = 0) ∧
  s.totalPoints ≤ 6 * s.currentRound +
    (if s.awaitingNextRound then 0
     else s.namePointsEarned + s.yearPointsEarned)

theorem setupRound_inv (allCards : List Card) (r : Nat) (s s2 : GState)
    (h : setupRound allCards r s = some s2)
    (hTP : s.totalPoints ≤ 6 * s.currentRound)
    (hR : s.currentRound < 5) : Inv s2 := by
  unfold setupRound at h
  dsimp only at h
  by_cases hav :
      (List.filter (fun c => !s.usedCardIds.contains c.id) allCards).isEmpty
        = true
  · rw [if_pos hav] at h
    dsimp only at h
    split at h
    · exact absurd h (by simp)
    · rename_i card heq
      injection h with h
      subst h
      unfold Inv
      refine ⟨by simp, by simp, by simp; omega, by simp; omega,
        by simp, by simp, by simp, ?_⟩
      simpa using hTP
  · rw [if_neg hav] at h
    dsimp only at h
    split at h
    · exact absurd h (by simp)
    · rename_i card heq
      injection h with h
      subst h
      unfold Inv
      refine ⟨by simp, by simp, by simp; omega, by simp; omega,
        by simp, by simp, by simp, ?_⟩
      simpa using hTP

theorem submitGuess_inv (n : String) (y : Option Int) (s : GState)
    (h : Inv s) : Inv (submitGuess n y s).1 := by
  obtain ⟨hnp, hyp, hr5, hrlt, hat, hnc0, hyc0, htp⟩ := h
  unfold submitGuess
  by_cases hw : s.awaitingNextRound = true
  · rw [if_pos hw]
    exact ⟨hnp, hyp, hr5, hrlt, hat, hnc0, hyc0, htp⟩
  · rw [if_neg hw]
    have hw2 : s.awaitingNextRound = false := by
      cases hb : s.awaitingNextRound
      · rfl
      · exact absurd hb hw
    cases hc : s.currentCard with
    | none => exact ⟨hnp, hyp, hr5, hrlt, hat, hnc0, hyc0, htp⟩
    | some card =>
      rw [hw2] at htp
      simp only [if_false, Bool.false_eq_true] at htp
      obtain ⟨ha1, ha2⟩ := hat hw2
      have hR := hrlt hw2
      have hp1 := calculatePoints_le_three (4 - s.attemptsRemaining)
      dsimp only
      split_ifs with h1 h2 h3 <;>
        (unfold Inv; refine ⟨?_, ?_, ?_, ?_, ?_, ?_, ?_, ?_⟩) <;>
        simp_all <;> omega

theorem reach_inv (allCards : List Card) (s : GState)
    (h : Reach allCards s) : Inv s := by
  induction h with
  | init r s hsetup =>
      exact setupRound_inv allCards r initialGState s hsetup
        (by simp [initialGState]) (by simp [initialGState])
  | submit s n y hs ih => exact submitGuess_inv n y s ih
  | next s s2 r hs hAwait hRound hsetup ih =>
      refine setupRound_inv allCards r s s2 hsetup ?_ hRound
      have htp := ih.2.2.2.2.2.2.2
      rw [hAwait] at htp
      simpa using htp

set_option maxHeartbeats 2000000 in
theorem submitGuess_award (s : GState) (n : String) (y : Option Int)
    (r : GOk) (hinv : Inv s)
    (hok : (submitGuess n y s).2 = .ok r) :
    (s.nameCorrect = true → r.namePointsThisAttempt = 0) ∧
    (s.yearCorrect = true → r.yearPointsThisAttempt = 0) ∧
    (r.nameMatch = true →
      (r.namePointsThisAttempt = calculatePoints (4 - s.attemptsRemaining) ∧
       (s.attemptsRemaining = 3 → r.namePointsThisAttempt = 3) ∧
       (s.attemptsRemaining = 2 → r.namePointsThisAttempt = 2) ∧
       (s.attemptsRemaining = 1 → r.namePointsThisAttempt = 1))) ∧
    (r.yearMatch = true →
      (r.yearPointsThisAttempt = calculatePoints (4 - s.attemptsRemaining) ∧
       (s.attemptsRemaining = 3 → r.yearPointsThisAttempt = 3) ∧
       (s.attemptsRemaining = 2 → r.yearPointsThisAttempt = 2) ∧
       (s.attemptsRemaining = 1 → r.yearPointsThisAttempt = 1))) ∧
    r.roundPointsEarned ≤ 6 ∧
    r.totalPoints ≤ 30 := by
  obtain ⟨hnp, hyp, hr5, hrlt, hat, hnc0, hyc0, htp⟩ := hinv
  unfold submitGuess at hok
  by_cases hw : s.awaitingNextRound = true
  · rw [if_pos hw] at hok
    exact absurd hok (by simp)
  · rw [if_neg hw] at hok
    have hw2 : s.awaitingNextRound = false := by
      cases hb : s.awaitingNextRound
      · rfl
      · exact absurd hb hw
    cases hc : s.currentCard with
    | none => rw [hc] at hok; exact absurd hok (by simp)
    | some card =>
      rw [hc] at hok
      rw [hw2] at htp
      simp only [if_false, Bool.false_eq_true] at htp
      obtain ⟨ha1, ha2⟩ := hat hw2
      have hR := hrlt hw2
      have hp1 := calculatePoints_le_three (4 - s.attemptsRemaining)
      dsimp only at hok
      split_ifs at hok with h1 h2 h3 <;>
        (simp only [GResult.ok.injEq] at hok; subst hok;
         refine ⟨?_, ?_, ?_, ?_, ?_, ?_⟩) <;>
        simp_all [calculatePoints] <;> omega

end Guess

/-- C3: in every reachable guess state, each component is evaluated only
while not yet correct and an already-correct component earns 0 on any later
submission; a component that becomes correct earns exactly
`calculatePoints(4 - attemptsRemaining-before-decrement)`, i.e. 3, 2 or 1
points for attempts-used 1, 2 or 3; the points earned in one round never
exceed 6 and the game total never exceeds 30. -/
theorem guess_scoring_bounds (allCards : List Card) (s : Guess.GState)
    (h : Guess.Reach allCards s) :
    s.namePointsEarned + s.yearPointsEarned ≤ 6 ∧
    s.totalPoints ≤ 30 ∧
    (∀ (n : String) (y : Option Int) (r : Guess.GOk),
      (Guess.submitGuess n y s).2 = .ok r →
        ((s.nameCorrect = true → r.namePointsThisAttempt = 0) ∧
         (s.yearCorrect = true → r.yearPointsThisAttempt = 0) ∧
         (r.nameMatch = true →
           (r.namePointsThisAttempt =
              Guess.calculatePoints (4 - s.attemptsRemaining) ∧
            (s.attemptsRemaining = 3 → r.namePointsThisAttempt = 3) ∧
            (s.attemptsRemaining = 2 → r.namePointsThisAttempt = 2) ∧
            (s.attemptsRemaining = 1 → r.namePointsThisAttempt = 1))) ∧
         (r.yearMatch = true →
           (r.yearPointsThisAttempt =
              Guess.calculatePoints (4 - s.attemptsRemaining) ∧
            (s.attemptsRemaining = 3 → r.yearPointsThisAttempt = 3) ∧
            (s.attemptsRemaining = 2 → r.yearPointsThisAttempt = 2) ∧
            (s.attemptsRemaining = 1 → r.yearPointsThisAttempt = 1))) ∧
         r.roundPointsEarned ≤ 6 ∧
         r.totalPoints ≤ 30)) := by
  have hinv := Guess.reach_inv allCards s h
  obtain ⟨hnp, hyp, hr5, hrlt, hat, hnc0, hyc0, htp⟩ := hinv
  refine ⟨by omega, ?_, ?_⟩
  · by_cases hw : s.awaitingNextRound = true
    · rw [hw] at htp
      simp only [if_true] at htp
      omega
    · have hw2 : s.awaitingNextRound = false := by
        cases hb : s.awaitingNextRound
        · rfl
        · exact absurd hb hw
      rw [hw2] at htp
      simp only [if_false, Bool.false_eq_true] at htp
      have := hrlt hw2
      omega
  · intro n y r hok
    exact Guess.submitGuess_award s n y r
      ⟨hnp, hyp, hr5, hrlt, hat, hnc0, hyc0, htp⟩ hok

/-- The guess state after `init` drew Babe Ruth. -/
def guessRound1 : Guess.GState :=
  { Guess.initialGState with
      currentCard := some babeRuth
      usedCardIds := ["babe-ruth"] }

/-- Concrete instance of `guess_scoring_bounds`: the state reached by
drawing Babe Ruth satisfies the bounds, and a first-attempt correct guess
of name and year earns 3 points per component. -/
theorem guess_scoring_bounds_witness :
    guessRound1.namePointsEarned + guessRound1.yearPointsEarned ≤ 6 ∧
    guessRound1.totalPoints ≤ 30 ∧
    3 = Guess.calculatePoints (4 - guessRound1.attemptsRemaining) := by
  have hreach : Guess.Reach [babeRuth] guessRound1 :=
    Guess.Reach.init 0 guessRound1 (by decide)
  have C := guess_scoring_bounds [babeRuth] guessRound1 hreach
  have hok : (Guess.submitGuess "Babe Ruth" (some 1916) guessRound1).2 =
      .ok ⟨true, true, true, true, 2, 3, 3, 3, 3, 6, true, false, 6, 1,
        babeRuth⟩ := by decide
  refine ⟨C.1, C.2.1, ?_⟩
  have haward := (C.2.2 "Babe Ruth" (some 1916) _ hok).2.2.1 rfl
  exact haward.1
